import Mathlib

/-!
Shallow embedding of the core of the `syros` coordination service
(`src/core/{cache_manager,event_store,lock_manager,saga_orchestrator}.rs`),
with theorems settling the frozen claims about it.

Modelling conventions:
* `chrono::DateTime<Utc>` instants and `std::time::Duration` values are `Nat`
  milliseconds.
* `serde_json::Value` is opaque to every claim, so it is modelled as `String`.
* Stateful async methods become pure functions taking the relevant store state
  (the in-memory `HashMap` behind the `RwLock`, the Redis keyspace, or the
  Postgres table) and returning the updated state together with the response,
  exactly mirroring the body of the Rust method.
-/

namespace Syros

/-- `serde_json::Value`, opaque to every claim in this development. -/
abbrev Json := String

/-! ## CacheManager (`src/core/cache_manager.rs`) -/

/-- `CacheEntry` from `cache_manager.rs`. -/
structure CacheEntry where
  key : String
  value : Json
  expiresAt : Option Nat
  tags : List String
  createdAt : Nat
  deriving Repr, DecidableEq

/-- `CacheRequest` from `cache_manager.rs`. -/
structure CacheRequest where
  key : String
  value : Json
  ttl : Option Nat
  tags : List String
  deriving Repr, DecidableEq

/-- `CacheResponse` from `cache_manager.rs`. -/
structure CacheResponse where
  key : String
  value : Option Json
  found : Bool
  message : String
  deriving Repr, DecidableEq

/-- `InvalidateByTagResponse` from `cache_manager.rs`. -/
structure InvalidateByTagResponse where
  invalidatedCount : Nat
  success : Bool
  message : String
  deriving Repr, DecidableEq

/-- The `HashMap<String, CacheEntry>` held behind the `RwLock` in
`CacheManager`, modelled as an association list; a `HashMap` never holds two
entries for the same key, which theorems needing it state as `Nodup` of the
key list. -/
abbrev Cache := List (String × CacheEntry)

/-- `CacheManager::set`: builds the entry (with `expires_at = now + ttl` when a
TTL is given) and unconditionally inserts it, replacing any previous entry for
the key. -/
def cacheSet (c : Cache) (now : Nat) (req : CacheRequest) : Cache × CacheResponse :=
  let expiresAt := req.ttl.map (fun ttl => now + ttl)
  let entry : CacheEntry :=
    { key := req.key, value := req.value, expiresAt := expiresAt
      tags := req.tags, createdAt := now }
  (⟨req.key, entry⟩ :: c.eraseP (fun p => p.1 == req.key),
   { key := req.key, value := some req.value, found := true
     message := "Cache set successfully" })

/-- `CacheManager::get`: looks the key up; if the entry carries an
`expires_at` that is `≤ now` the entry is removed and not-found is returned;
otherwise the stored value is returned; an absent key returns not-found. -/
def cacheGet (c : Cache) (now : Nat) (key : String) : Cache × CacheResponse :=
  match c.lookup key with
  | some entry =>
    match entry.expiresAt with
    | some expiresAt =>
      if expiresAt ≤ now then
        (c.eraseP (fun p => p.1 == key),
         { key := key, value := none, found := false, message := "Cache expired" })
      else
        (c, { key := key, value := some entry.value, found := true
              message := "Cache retrieved successfully" })
    | none =>
      (c, { key := key, value := some entry.value, found := true
            message := "Cache retrieved successfully" })
  | none =>
    (c, { key := key, value := none, found := false, message := "Cache key not found" })

/-- `CacheManager::invalidate_by_tag`: retains exactly the entries whose tag
list does not contain the tag and reports `initial_count - final_count`. -/
def invalidateByTag (c : Cache) (tag : String) : Cache × InvalidateByTagResponse :=
  let kept := c.filter (fun p => !(p.2.tags.contains tag))
  let invalidatedCount := c.length - kept.length
  (kept,
   { invalidatedCount := invalidatedCount, success := true
     message := "Invalidated " ++ toString invalidatedCount ++ " cache entries" })

/-- Whether, at instant `now`, the cache stores a live (unexpired) entry for
`key`; an entry with `expires_at ≤ now` is logically absent. -/
def liveEntry (c : Cache) (now : Nat) (key : String) : Option CacheEntry :=
  match c.lookup key with
  | some entry =>
    match entry.expiresAt with
    | some expiresAt => if expiresAt ≤ now then none else some entry
    | none => some entry
  | none => none

/-! ## LockManager (`src/core/lock_manager.rs`) -/

/-- A Redis string value together with its absolute expiry instant (ms). -/
structure RedisEntry where
  value : String
  expiresAt : Nat
  deriving Repr, DecidableEq

/-- Modelled from the spec: the external key-value store required by
`LockManager` (spec section 6) — Redis — is not code of this repository;
`src/storage/redis.rs` only opens a client connection. Its keyspace is a map
from key to value-with-expiry; a key whose expiry has passed is absent. -/
def RedisState := String → Option RedisEntry

/-- Modelled from the spec: Redis `GET` — returns the stored value when the
key exists and is unexpired, otherwise nothing. -/
def redisGet (st : RedisState) (now : Nat) (key : String) : Option String :=
  match st key with
  | some e => if now < e.expiresAt then some e.value else none
  | none => none

/-- Modelled from the spec: Redis `SET key value NX PX ttl` — the atomic
"set if absent with expiry": when no unexpired value is stored for the
key it stores the value with expiry `now + ttl` and answers `OK`;
otherwise it leaves the keyspace unchanged and answers nil. -/
def redisSetNxPx (st : RedisState) (now : Nat) (key value : String) (ttlMs : Nat) :
    RedisState × Option String :=
  match redisGet st now key with
  | some _ => (st, none)
  | none => (fun k => if k = key then some ⟨value, now + ttlMs⟩ else st k, some "OK")

/-- Modelled from the spec: the scripted compare-and-delete the `release_lock`
Lua script performs atomically — when the stored value for the key equals
the argument, delete the key and answer `1`; otherwise answer `0` and
change nothing. -/
def redisCompareAndDel (st : RedisState) (now : Nat) (key value : String) :
    RedisState × Nat :=
  if redisGet st now key = some value then
    (fun k => if k = key then none else st k, 1)
  else
    (st, 0)

/-- `LockRequest` from `lock_manager.rs` (`ttl` in ms). -/
structure LockRequest where
  key : String
  ttl : Nat
  metadata : Option String
  owner : String
  waitTimeout : Option Nat
  deriving Repr, DecidableEq

/-- `LockResponse` from `lock_manager.rs`. -/
structure LockResponse where
  lockId : String
  success : Bool
  message : String
  deriving Repr, DecidableEq

/-- `ReleaseLockRequest` from `lock_manager.rs`. -/
structure ReleaseLockRequest where
  key : String
  lockId : String
  owner : String
  deriving Repr, DecidableEq

/-- `ReleaseLockResponse` from `lock_manager.rs`. -/
structure ReleaseLockResponse where
  success : Bool
  message : String
  deriving Repr, DecidableEq

/-- `LockState` from `lock_manager.rs` (instants in ms). -/
structure LockState where
  id : String
  key : String
  owner : String
  acquiredAt : Nat
  expiresAt : Nat
  metadata : Option String
  deriving Repr, DecidableEq

/-- The `format!("syros:locks:{}", key)` namespacing every lock key. -/
def lockKeyOf (key : String) : String := "syros:locks:" ++ key

/-- `LockManager::acquire_lock`, given a live connection: issues
`SET lock_key lock_id NX PX ttl_ms` with `lock_id = Uuid::new_v4()`
(the `newId` argument) and reports success with that id when the set
answered `OK`, and failure with an empty `lock_id` otherwise. -/
def acquireLock (st : RedisState) (now : Nat) (req : LockRequest) (newId : String) :
    RedisState × LockResponse :=
  let lockKey := lockKeyOf req.key
  match redisSetNxPx st now lockKey newId req.ttl with
  | (st2, some _) =>
    (st2, { lockId := newId, success := true, message := "Lock acquired successfully" })
  | (st2, none) =>
    (st2, { lockId := "", success := false, message := "Lock already exists" })

/-- `SyrosError` from `src/errors.rs`: the eight error kinds the crate
defines (each carries its message). -/
inductive SyrosError where
  | configError (msg : String)
  | storageError (msg : String)
  | lockError (msg : String)
  | sagaError (msg : String)
  | eventStoreError (msg : String)
  | apiError (msg : String)
  | serviceDiscoveryError (msg : String)
  | internalError (msg : String)
  deriving Repr, DecidableEq

/-- `LockManager::acquire_lock` as the caller sees it
(`Result<LockResponse>`): a backing-store failure (connection or `SET`)
surfaces as `Err(StorageError)`, every other outcome — the contention case
included — is an `Ok` response. `storeOk` abstracts whether the
backing-store round-trip succeeds. -/
def acquireLockResult (storeOk : Bool) (st : RedisState) (now : Nat)
    (req : LockRequest) (newId : String) :
    Except SyrosError (RedisState × LockResponse) :=
  if storeOk then
    Except.ok (acquireLock st now req newId)
  else
    Except.error (SyrosError.storageError "connection error")

/-- `LockManager::release_lock`, given a live connection: runs the
compare-and-delete script keyed on `syros:locks:{key}` with the provided
`lock_id` and reports success exactly when the script answered `1`. -/
def releaseLock (st : RedisState) (now : Nat) (req : ReleaseLockRequest) :
    RedisState × ReleaseLockResponse :=
  let lockKey := lockKeyOf req.key
  let (st2, r) := redisCompareAndDel st now lockKey req.lockId
  if r = 1 then
    (st2, { success := true, message := "Lock released successfully" })
  else
    (st2, { success := false, message := "Lock not found or ID mismatch" })

/-- `LockManager::get_lock_status`, given a live connection: `GET`s the lock
key; when a value (the stored lock id) is there it answers a `LockState`
whose `owner` is the literal `"unknown"` and whose `acquired_at` is the
current instant (the remaining TTL — `ttlMsLeft` — is what `conn.ttl`
reports, converted to an expiry); an absent or expired key answers none. -/
def getLockStatus (st : RedisState) (now : Nat) (key : String) (ttlMsLeft : Nat) :
    Option LockState :=
  match redisGet st now (lockKeyOf key) with
  | some id =>
    some { id := id, key := key, owner := "unknown", acquiredAt := now
           expiresAt := now + ttlMsLeft, metadata := none }
  | none => none

/-! ## EventStore (`src/core/event_store.rs`) -/

/-- `Event` from `event_store.rs` (a row of the `events` table; `version`
is positive in every row the store writes, so `Nat` carries it). -/
structure Event where
  id : String
  streamId : String
  eventType : String
  data : Json
  metadata : List (String × String)
  timestamp : Nat
  version : Nat
  deriving Repr, DecidableEq

/-- `EventRequest` from `event_store.rs`. -/
structure EventRequest where
  streamId : String
  eventType : String
  data : Json
  metadata : List (String × String)
  deriving Repr, DecidableEq

/-- `EventResponse` from `event_store.rs`. -/
structure EventResponse where
  eventId : String
  success : Bool
  message : String
  deriving Repr, DecidableEq

/-- The `events` table, rows in insertion order. -/
abbrev EventsTable := List Event

/-- The versions stored for a stream, in row order:
`SELECT version FROM events WHERE stream_id = $1`. -/
def versionsOf (tbl : EventsTable) (streamId : String) : List Nat :=
  (tbl.filter (fun e => e.streamId == streamId)).map (fun e => e.version)

/-- `SELECT COALESCE(MAX(version), 0) FROM events WHERE stream_id = $1`. -/
def streamMaxVersion (tbl : EventsTable) (streamId : String) : Nat :=
  (versionsOf tbl streamId).foldr max 0

/-- `EventStore::append_event`: in one transaction, computes
`COALESCE(MAX(version), 0) + 1` for the stream and inserts the new row with
that version; `eid` stands for the generated `Uuid::new_v4()`. -/
def appendEvent (tbl : EventsTable) (req : EventRequest) (eid : String) (now : Nat) :
    EventsTable × EventResponse :=
  let version := streamMaxVersion tbl req.streamId + 1
  (tbl ++ [{ id := eid, streamId := req.streamId, eventType := req.eventType
             data := req.data, metadata := req.metadata, timestamp := now
             version := version }],
   { eventId := eid, success := true, message := "Event appended successfully" })

/-- A sequence of `append_event` calls applied in order to the table (each
paired with its generated event id and call instant). -/
def applyAppends (tbl : EventsTable) : List (EventRequest × String × Nat) → EventsTable
  | [] => tbl
  | (req, eid, now) :: rest => applyAppends (appendEvent tbl req eid now).1 rest

/-! ## SagaOrchestrator (`src/core/saga_orchestrator.rs`) -/

/-- `BackoffStrategy` from `saga_orchestrator.rs`. -/
inductive BackoffStrategy where
  | linear
  | exponential
  | fixed
  deriving Repr, DecidableEq

/-- `RetryPolicy` from `saga_orchestrator.rs` (`initial_delay` in ms). -/
structure RetryPolicy where
  maxRetries : Nat
  backoffStrategy : BackoffStrategy
  initialDelay : Nat
  deriving Repr, DecidableEq

/-- `SagaStep` from `saga_orchestrator.rs` (`timeout` in ms). -/
structure SagaStep where
  name : String
  service : String
  action : String
  compensation : String
  timeout : Nat
  retryPolicy : Option RetryPolicy
  deriving Repr, DecidableEq

/-- `SagaRequest` from `saga_orchestrator.rs`. -/
structure SagaRequest where
  name : String
  steps : List SagaStep
  metadata : Option (List (String × String))
  deriving Repr, DecidableEq

/-- `SagaResponse` from `saga_orchestrator.rs`. -/
structure SagaResponse where
  sagaId : String
  success : Bool
  message : String
  deriving Repr, DecidableEq

/-- A row of the `sagas` table (`status` stored as text, `current_step`
null until a step is attempted, `steps` the JSON array of steps). -/
structure SagaRecord where
  id : String
  name : String
  status : String
  steps : List SagaStep
  currentStep : Option Nat
  createdAt : Nat
  updatedAt : Nat
  metadata : List (String × String)
  deriving Repr, DecidableEq

/-- The observable history of one saga execution: the persisted
`current_step`, every `status` value written to the row in order, every
`execute_step` call (by step index, in call order), and every
`compensate_step` call (by step index, in call order). -/
structure SagaRun where
  currentStep : Option Nat
  statusWrites : List String
  attempts : List Nat
  compensations : List Nat
  deriving Repr, DecidableEq

/-- `SagaOrchestrator::execute_step`: issues the `UPDATE` persisting
`current_step = i`, sleeps, and returns `Ok` — the artificial random failure
is commented out, so the only failure path is the storage outcome of the
`UPDATE`, which `fails` abstracts; a failed `UPDATE` persists nothing. -/
def executeStep (fails : Bool) (i : Nat) (s : SagaRun) : SagaRun × Bool :=
  if fails then
    ({ s with attempts := s.attempts ++ [i] }, false)
  else
    ({ s with attempts := s.attempts ++ [i], currentStep := some i }, true)

/-- `SagaOrchestrator::compensate_saga`: writes status `Compensating`, calls
`compensate_step` for every index of `0..steps_count` in reverse — reading
`steps_count` from the stored steps array, never `current_step` — then writes
status `Compensated`; `compensate_step` itself only sleeps and returns `Ok`. -/
def compensateSaga (stepsCount : Nat) (s : SagaRun) : SagaRun :=
  { s with
    statusWrites := s.statusWrites ++ ["Compensating"] ++ ["Compensated"]
    compensations := s.compensations ++ (List.range stepsCount).reverse }

/-- The `for step_index in 0..steps_count` loop of `execute_saga`, over the
remaining step indices: stops at the first failing step, reporting its
index. -/
def runSteps (stepFails : Nat → Bool) (s : SagaRun) :
    List Nat → SagaRun × Option Nat
  | [] => (s, none)
  | i :: rest =>
    match executeStep (stepFails i) i s with
    | (s2, true) => runSteps stepFails s2 rest
    | (s2, false) => (s2, some i)

/-- `SagaOrchestrator::execute_saga`: writes status `Running`, executes the
steps in order, and either writes `Completed` (all steps returned `Ok`) or —
on the first step failure — runs `compensate_saga` and propagates the error;
the result carries the failing step index when there was one. -/
def executeSaga (steps : List SagaStep) (stepFails : Nat → Bool) :
    SagaRun × Option Nat :=
  let s0 : SagaRun :=
    { currentStep := none, statusWrites := ["Running"], attempts := []
      compensations := [] }
  match runSteps stepFails s0 (List.range steps.length) with
  | (s, none) => ({ s with statusWrites := s.statusWrites ++ ["Completed"] }, none)
  | (s, some k) => (compensateSaga steps.length s, some k)

/-- `SagaOrchestrator::start_saga`: generates the saga id, inserts the row
with status `Pending` (no validation of the request whatsoever), spawns the
asynchronous execution, and answers success. -/
def startSaga (tbl : List SagaRecord) (req : SagaRequest) (newId : String) (now : Nat) :
    List SagaRecord × SagaResponse :=
  let metadata := req.metadata.getD []
  (tbl ++ [{ id := newId, name := req.name, status := "Pending", steps := req.steps
             currentStep := none, createdAt := now, updatedAt := now
             metadata := metadata }],
   { sagaId := newId, success := true, message := "Saga started successfully" })

/-! ## Concrete data for witnesses and counterexamples -/

/-- A cache entry for key `"k"` that expired at instant 5. -/
def expiredEntry : CacheEntry :=
  { key := "k", value := "v", expiresAt := some 5, tags := ["t"], createdAt := 0 }

/-- A saga step with no retry policy. -/
def stepA : SagaStep :=
  { name := "a", service := "svc", action := "do-a", compensation := "undo-a"
    timeout := 1000, retryPolicy := none }

/-- A second saga step with no retry policy. -/
def stepB : SagaStep :=
  { name := "b", service := "svc", action := "do-b", compensation := "undo-b"
    timeout := 1000, retryPolicy := none }

/-- A saga step carrying a retry policy of three fixed-backoff retries. -/
def retriedStep : SagaStep :=
  { name := "r", service := "svc", action := "do-r", compensation := "undo-r"
    timeout := 1000
    retryPolicy := some { maxRetries := 3, backoffStrategy := BackoffStrategy.fixed
                          initialDelay := 100 } }

/-- An entry for key `"a"` tagged `"t"`. -/
def entryT : CacheEntry :=
  { key := "a", value := "1", expiresAt := none, tags := ["t"], createdAt := 0 }

/-- An entry for key `"c"` tagged `"u"` only. -/
def entryU : CacheEntry :=
  { key := "c", value := "3", expiresAt := none, tags := ["u"], createdAt := 0 }

/-- A cache with one `"t"`-tagged and one `"u"`-tagged entry. -/
def demoCache : Cache := [("a", entryT), ("c", entryU)]

/-- A lock request for key `"K"` by owner `"alice"` with a 5 s TTL. -/
def lockReqA : LockRequest :=
  { key := "K", ttl := 5000, metadata := none, owner := "alice", waitTimeout := none }

/-- A keyspace where key `"K"` is locked by lock id `"uuid-4"` until
instant 9000. -/
def heldState : RedisState :=
  fun k => if k = lockKeyOf "K" then some ⟨"uuid-4", 9000⟩ else none

/-- Three append requests: two to stream `"S"`, one to stream `"T"`. -/
def demoReqs : List (EventRequest × String × Nat) :=
  [({ streamId := "S", eventType := "e", data := "d0", metadata := [] }, "id-a", 10),
   ({ streamId := "T", eventType := "e", data := "d1", metadata := [] }, "id-b", 11),
   ({ streamId := "S", eventType := "e", data := "d2", metadata := [] }, "id-c", 12)]

/-! ## Helper lemmas -/

/-- The entries satisfying a predicate and those refuting it partition a
list. -/
theorem filter_length_split {α : Type} (p : α → Bool) (l : List α) :
    (l.filter p).length + (l.filter (fun a => !p a)).length = l.length := by
  induction l with
  | nil => rfl
  | cons a t ih => cases h : p a <;> simp [List.filter_cons, h] <;> omega

/-- A key that is not among the keys of an association list looks up to
nothing. -/
theorem lookup_eq_none_of_not_mem_keys {β : Type} (l : List (String × β)) (k : String)
    (h : k ∉ l.map Prod.fst) : l.lookup k = none := by
  induction l with
  | nil => rfl
  | cons p t ih =>
    simp only [List.map_cons, List.mem_cons] at h
    push_neg at h
    have hk : (k == p.1) = false := by
      simp [beq_eq_false_iff_ne]
      exact h.1
    cases p with
    | mk a b =>
      simp only [List.lookup]
      simp only at hk
      rw [hk]
      exact ih h.2

/-- Erasing the entry for `key` from an association list with distinct keys
makes `key` look up to nothing. -/
theorem lookup_eraseP_eq_none {β : Type} (l : List (String × β)) (key : String)
    (h : (l.map Prod.fst).Nodup) :
    (l.eraseP (fun p => p.1 == key)).lookup key = none := by
  induction l with
  | nil => rfl
  | cons p t ih =>
    simp only [List.map_cons, List.nodup_cons] at h
    by_cases hp : p.1 = key
    · rw [List.eraseP_cons_of_pos (by simp [hp])]
      exact lookup_eq_none_of_not_mem_keys t key (hp ▸ h.1)
    · rw [List.eraseP_cons_of_neg (by simp [hp])]
      cases p with
      | mk a b =>
        simp only [List.lookup]
        have hk : (key == a) = false := by
          simp only at hp
          simp [beq_eq_false_iff_ne]
          exact fun hh => hp hh.symm
        rw [hk]
        exact ih h.2

/-! ## Claim theorems: CacheManager -/

/-- C6: `CacheManager::get` answers found only for a stored, unexpired
entry — it returns `found = false` exactly when the key is absent or the
stored entry has `expires_at ≤ now`, returns the stored value otherwise, and
a read that observes an expired entry removes that entry from the cache. -/
theorem cacheGet_spec (c : Cache) (now : Nat) (key : String)
    (hkeys : (c.map Prod.fst).Nodup) :
    (cacheGet c now key).2.found = (liveEntry c now key).isSome ∧
    (cacheGet c now key).2.value = (liveEntry c now key).map CacheEntry.value ∧
    ((c.lookup key).isSome = true → liveEntry c now key = none →
      (cacheGet c now key).1.lookup key = none) := by
  refine ⟨?_, ?_, ?_⟩
  · unfold cacheGet liveEntry
    cases c.lookup key with
    | none => rfl
    | some entry =>
      obtain ⟨ek, ev, eexp, etags, ecr⟩ := entry
      cases eexp with
      | none => rfl
      | some expiresAt =>
        by_cases hexp : expiresAt ≤ now <;> simp [hexp]
  · unfold cacheGet liveEntry
    cases c.lookup key with
    | none => rfl
    | some entry =>
      obtain ⟨ek, ev, eexp, etags, ecr⟩ := entry
      cases eexp with
      | none => rfl
      | some expiresAt =>
        by_cases hexp : expiresAt ≤ now <;> simp [hexp]
  · intro hsome hlive
    unfold cacheGet
    unfold liveEntry at hlive
    cases hl : c.lookup key with
    | none => rw [hl] at hsome; simp at hsome
    | some entry =>
      rw [hl] at hlive
      obtain ⟨ek, ev, eexp, etags, ecr⟩ := entry
      cases eexp with
      | none => simp at hlive
      | some expiresAt =>
        by_cases h2 : expiresAt ≤ now
        · simp only [h2, if_true]
          exact lookup_eraseP_eq_none c key hkeys
        · simp [h2] at hlive

/-- C6 witness: a concrete cache holding an entry for `"k"` expired by
instant 10; the read reports not-found and removes the entry. -/
theorem cacheGet_spec_witness :
    (cacheGet [("k", expiredEntry)] 10 "k").2.found = false ∧
    (cacheGet [("k", expiredEntry)] 10 "k").1.lookup "k" = none := by
  have h := cacheGet_spec [("k", expiredEntry)] 10 "k" (by decide)
  exact ⟨by rw [h.1]; decide, h.2.2 (by decide) (by decide)⟩

/-- C7: `CacheManager::invalidate_by_tag` removes exactly the entries whose
tag set contains the tag — an entry survives iff it was stored and does not
carry the tag — and reports the number of entries it removed. -/
theorem invalidateByTag_spec (c : Cache) (tag : String) :
    (∀ p : String × CacheEntry,
      p ∈ (invalidateByTag c tag).1 ↔ p ∈ c ∧ tag ∉ p.2.tags) ∧
    (invalidateByTag c tag).2.invalidatedCount =
      (c.filter (fun p => p.2.tags.contains tag)).length := by
  constructor
  · intro p
    unfold invalidateByTag
    simp [List.mem_filter]
  · unfold invalidateByTag
    simp only
    have h := filter_length_split (fun p : String × CacheEntry => p.2.tags.contains tag) c
    omega

/-- C7 witness: invalidating tag `"t"` on the two-entry demo cache keeps the
`"u"`-tagged entry and reports the number of `"t"`-tagged entries removed. -/
theorem invalidateByTag_spec_witness :
    ("c", entryU) ∈ (invalidateByTag demoCache "t").1 ∧
    (invalidateByTag demoCache "t").2.invalidatedCount =
      (demoCache.filter (fun p => p.2.tags.contains "t")).length := by
  have h := invalidateByTag_spec demoCache "t"
  exact ⟨(h.1 ("c", entryU)).mpr ⟨by decide, by decide⟩, h.2⟩

/-! ## Claim theorems: LockManager -/

/-- Reduction of `acquireLock` when the key is free (absent or expired). -/
theorem acquireLock_of_free (st : RedisState) (now : Nat) (req : LockRequest)
    (newId : String) (h : redisGet st now (lockKeyOf req.key) = none) :
    acquireLock st now req newId =
      ((fun k => if k = lockKeyOf req.key then
          some ⟨newId, now + req.ttl⟩ else st k),
       { lockId := newId, success := true, message := "Lock acquired successfully" }) := by
  unfold acquireLock redisSetNxPx
  simp [h]

/-- Reduction of `acquireLock` when an unexpired lock is stored. -/
theorem acquireLock_of_held (st : RedisState) (now : Nat) (req : LockRequest)
    (newId v : String) (h : redisGet st now (lockKeyOf req.key) = some v) :
    acquireLock st now req newId =
      (st, { lockId := "", success := false, message := "Lock already exists" }) := by
  unfold acquireLock redisSetNxPx
  simp [h]

/-- Reduction of `releaseLock` when the stored lock id matches. -/
theorem releaseLock_of_match (st : RedisState) (now : Nat) (req : ReleaseLockRequest)
    (h : redisGet st now (lockKeyOf req.key) = some req.lockId) :
    releaseLock st now req =
      ((fun k => if k = lockKeyOf req.key then none else st k),
       { success := true, message := "Lock released successfully" }) := by
  unfold releaseLock redisCompareAndDel
  simp [h]

/-- Reduction of `releaseLock` when the stored lock id does not match (or no
unexpired lock is stored). -/
theorem releaseLock_of_mismatch (st : RedisState) (now : Nat) (req : ReleaseLockRequest)
    (h : ¬redisGet st now (lockKeyOf req.key) = some req.lockId) :
    releaseLock st now req =
      (st, { success := false, message := "Lock not found or ID mismatch" }) := by
  unfold releaseLock redisCompareAndDel
  simp [h]

/-- C3: `LockManager::acquire_lock` succeeds exactly when no unexpired lock
is stored for the key at the atomic `SET NX PX` claim; a successful acquire
stores the freshly generated lock id with expiry `now + ttl` (so the key
holds exactly this one lock), and a failed acquire leaves the keyspace
unchanged. -/
theorem acquireLock_spec (st : RedisState) (now : Nat) (req : LockRequest)
    (newId : String) :
    ((acquireLock st now req newId).2.success = true ↔
      redisGet st now (lockKeyOf req.key) = none) ∧
    ((acquireLock st now req newId).2.success = true →
      (acquireLock st now req newId).1 (lockKeyOf req.key) =
        some ⟨newId, now + req.ttl⟩) ∧
    ((acquireLock st now req newId).2.success = false →
      (acquireLock st now req newId).1 = st) := by
  cases h : redisGet st now (lockKeyOf req.key) with
  | some v =>
    rw [acquireLock_of_held st now req newId v h]
    exact ⟨by simp [h], by simp, fun _ => rfl⟩
  | none =>
    rw [acquireLock_of_free st now req newId h]
    exact ⟨by simp [h], fun _ => by simp, by simp⟩

/-- C3 witness: acquiring key `"K"` on an empty keyspace at instant 0
succeeds and stores the generated id with expiry `0 + 5000`. -/
theorem acquireLock_spec_witness :
    (acquireLock (fun _ => none) 0 lockReqA "uuid-3").2.success = true ∧
    (acquireLock (fun _ => none) 0 lockReqA "uuid-3").1 (lockKeyOf "K") =
      some ⟨"uuid-3", 0 + 5000⟩ := by
  have h := acquireLock_spec (fun _ => none) 0 lockReqA "uuid-3"
  have hs : (acquireLock (fun _ => none) 0 lockReqA "uuid-3").2.success = true :=
    h.1.mpr rfl
  exact ⟨hs, h.2.1 hs⟩

/-- C4: `LockManager::release_lock` succeeds exactly when the stored
(unexpired) lock id for the key equals the provided one; in that case the
compare-and-delete script removes the lock and touches no other key, and in
every other case the keyspace is left untouched and the call answers a
non-fatal mismatch response. -/
theorem releaseLock_spec (st : RedisState) (now : Nat) (req : ReleaseLockRequest) :
    ((releaseLock st now req).2.success = true ↔
      redisGet st now (lockKeyOf req.key) = some req.lockId) ∧
    ((releaseLock st now req).2.success = true →
      (releaseLock st now req).1 (lockKeyOf req.key) = none ∧
      ∀ k, k ≠ lockKeyOf req.key → (releaseLock st now req).1 k = st k) ∧
    ((releaseLock st now req).2.success = false →
      (releaseLock st now req).1 = st ∧
      (releaseLock st now req).2.message = "Lock not found or ID mismatch") := by
  by_cases h : redisGet st now (lockKeyOf req.key) = some req.lockId
  · rw [releaseLock_of_match st now req h]
    exact ⟨by simp [h], fun _ => ⟨by simp, fun k hk => by simp [hk]⟩, by simp⟩
  · rw [releaseLock_of_mismatch st now req h]
    exact ⟨by simpa using h, by simp, fun _ => ⟨rfl, rfl⟩⟩

/-- C4 witness: releasing key `"K"` with the matching lock id `"uuid-4"`
succeeds and deletes the stored lock. -/
theorem releaseLock_spec_witness :
    (releaseLock heldState 0 { key := "K", lockId := "uuid-4", owner := "alice" }).2.success
      = true ∧
    (releaseLock heldState 0 { key := "K", lockId := "uuid-4", owner := "alice" }).1
      (lockKeyOf "K") = none := by
  have h := releaseLock_spec heldState 0 { key := "K", lockId := "uuid-4", owner := "alice" }
  have hs : (releaseLock heldState 0
      { key := "K", lockId := "uuid-4", owner := "alice" }).2.success = true :=
    h.1.mpr (by decide)
  exact ⟨hs, (h.2.1 hs).1⟩

/-- C10: when the backing-store round-trip succeeds, `acquire_lock` never
surfaces contention as an `Err`: the call answers `Ok`, with the freshly
generated (non-empty) id as `lock_id` exactly when `success = true` and the
empty string as `lock_id` exactly when `success = false`. -/
theorem acquireLockResult_spec (st : RedisState) (now : Nat) (req : LockRequest)
    (newId : String) (h : newId ≠ "") :
    acquireLockResult true st now req newId =
      Except.ok (acquireLock st now req newId) ∧
    ((acquireLock st now req newId).2.success = true ↔
      (acquireLock st now req newId).2.lockId = newId) ∧
    ((acquireLock st now req newId).2.success = false ↔
      (acquireLock st now req newId).2.lockId = "") := by
  refine ⟨rfl, ?_, ?_⟩ <;>
  · cases hg : redisGet st now (lockKeyOf req.key) with
    | some v =>
      rw [acquireLock_of_held st now req newId v hg]
      simp
      try exact fun he => absurd he.symm h
    | none =>
      rw [acquireLock_of_free st now req newId hg]
      simp [h]

/-- C10 witness: acquiring `"K"` on an empty keyspace with a concrete
non-empty generated id. -/
theorem acquireLockResult_spec_witness :
    acquireLockResult true (fun _ => none) 0
      { key := "K", ttl := 5000, metadata := none, owner := "alice"
        waitTimeout := none } "uuid-w" =
      Except.ok (acquireLock (fun _ => none) 0
        { key := "K", ttl := 5000, metadata := none, owner := "alice"
          waitTimeout := none } "uuid-w") ∧
    ((acquireLock (fun _ => none) 0
        { key := "K", ttl := 5000, metadata := none, owner := "alice"
          waitTimeout := none } "uuid-w").2.success = true ↔
      (acquireLock (fun _ => none) 0
        { key := "K", ttl := 5000, metadata := none, owner := "alice"
          waitTimeout := none } "uuid-w").2.lockId = "uuid-w") :=
  have h := acquireLockResult_spec (fun _ => none) 0
    { key := "K", ttl := 5000, metadata := none, owner := "alice"
      waitTimeout := none } "uuid-w" (by decide)
  ⟨h.1, h.2.1⟩

/-- C9 (code bug): after owner `"alice"` acquires key `"K"` and is handed
lock id `"uuid-1"`, `get_lock_status("K")` does answer a state whose id is
`"uuid-1"`, but its owner field is the hard-coded `"unknown"`, not
`"alice"` — the owner is never stored under the lock key. -/
theorem getLockStatus_owner_unknown :
    (acquireLock (fun _ => none) 1000
      { key := "K", ttl := 5000, metadata := none, owner := "alice"
        waitTimeout := none } "uuid-1").2.success = true ∧
    ((getLockStatus (acquireLock (fun _ => none) 1000
        { key := "K", ttl := 5000, metadata := none, owner := "alice"
          waitTimeout := none } "uuid-1").1 1000 "K" 5000).map LockState.id =
      some "uuid-1") ∧
    ((getLockStatus (acquireLock (fun _ => none) 1000
        { key := "K", ttl := 5000, metadata := none, owner := "alice"
          waitTimeout := none } "uuid-1").1 1000 "K" 5000).map LockState.owner =
      some "unknown") ∧
    ((getLockStatus (acquireLock (fun _ => none) 1000
        { key := "K", ttl := 5000, metadata := none, owner := "alice"
          waitTimeout := none } "uuid-1").1 1000 "K" 5000).map LockState.owner ≠
      some "alice") := by
  refine ⟨rfl, ?_, ?_, ?_⟩ <;> simp [getLockStatus, acquireLock, redisSetNxPx,
    redisGet, lockKeyOf]

/-! ## Claim theorems: SagaOrchestrator -/

/-- Appending the next element to a `range'`. -/
theorem range'_snoc (s n : Nat) :
    List.range' s n ++ [s + n] = List.range' s (n + 1) := by
  induction n generalizing s with
  | zero => simp [List.range'_succ]
  | succ m ih =>
    rw [List.range'_succ s m 1, List.range'_succ s (m + 1) 1]
    simp only [List.cons_append]
    rw [show s + (m + 1) = (s + 1) + m by omega, ih (s + 1)]

/-- One unfolding of the `execute_saga` step loop. -/
theorem runSteps_cons (f : Nat → Bool) (s : SagaRun) (i : Nat) (rest : List Nat) :
    runSteps f s (i :: rest) =
      if f i then ({ s with attempts := s.attempts ++ [i] }, some i)
      else runSteps f { s with attempts := s.attempts ++ [i], currentStep := some i } rest := by
  cases hf : f i <;> simp [runSteps, executeStep, hf]

/-- The step loop never writes a saga status. -/
theorem runSteps_statusWrites (f : Nat → Bool) (idxs : List Nat) :
    ∀ s : SagaRun, (runSteps f s idxs).1.statusWrites = s.statusWrites := by
  induction idxs with
  | nil => intro s; rfl
  | cons i rest ih =>
    intro s
    rw [runSteps_cons]
    cases hf : f i
    · simp only [hf, if_neg Bool.false_ne_true]
      exact ih _
    · simp [hf]

/-- The step loop never calls `compensate_step`. -/
theorem runSteps_compensations (f : Nat → Bool) (idxs : List Nat) :
    ∀ s : SagaRun, (runSteps f s idxs).1.compensations = s.compensations := by
  induction idxs with
  | nil => intro s; rfl
  | cons i rest ih =>
    intro s
    rw [runSteps_cons]
    cases hf : f i
    · simp only [hf, if_neg Bool.false_ne_true]
      exact ih _
    · simp [hf]

/-- Over the index range `a, a+1, …, a+n-1`, the step loop attempts the
indices in order up to and including the first failing one (all of them when
none fails), each exactly once. -/
theorem runSteps_range'_attempts (f : Nat → Bool) :
    ∀ (n a : Nat) (s : SagaRun),
      ((runSteps f s (List.range' a n)).2 = none →
        (runSteps f s (List.range' a n)).1.attempts = s.attempts ++ List.range' a n) ∧
      (∀ k, (runSteps f s (List.range' a n)).2 = some k →
        a ≤ k ∧ k < a + n ∧
        (runSteps f s (List.range' a n)).1.attempts =
          s.attempts ++ List.range' a (k + 1 - a)) := by
  intro n
  induction n with
  | zero =>
    intro a s
    exact ⟨fun _ => by simp [runSteps], fun k hk => by simp [runSteps] at hk⟩
  | succ m ih =>
    intro a s
    rw [List.range'_succ a m 1, runSteps_cons]
    cases hf : f a
    · simp only [hf, if_neg Bool.false_ne_true]
      obtain ⟨hnone, hsome⟩ := ih (a + 1) { s with attempts := s.attempts ++ [a], currentStep := some a }
      refine ⟨fun h2 => ?_, fun k hk => ?_⟩
      · rw [hnone h2]
        simp
      · obtain ⟨h1, h2, h3⟩ := hsome k hk
        refine ⟨by omega, by omega, ?_⟩
        rw [h3]
        simp only [List.append_assoc, List.singleton_append]
        have hr : a :: List.range' (a + 1) (k + 1 - (a + 1)) = List.range' a (k + 1 - a) := by
          rw [← List.range'_succ a (k + 1 - (a + 1)) 1,
            show k + 1 - (a + 1) + 1 = k + 1 - a by omega]
        rw [hr]
    · simp only [hf, if_pos rfl]
      refine ⟨fun h2 => by simp at h2, fun k hk => ?_⟩
      simp only at hk
      obtain rfl : a = k := by simpa using hk
      refine ⟨le_refl a, by omega, ?_⟩
      simp

/-- C1 counterexample: a saga of two steps whose step 0 fails (so no step
ever succeeded) still sees `compensate_step` called for step 1 — which was
never even attempted — and for the failed step 0, in that order, instead of
no compensation at all. -/
theorem compensateSaga_all_steps_cex :
    (executeSaga [stepA, stepB] (fun i => i == 0)).2 = some 0 ∧
    (executeSaga [stepA, stepB] (fun i => i == 0)).1.attempts = [0] ∧
    (executeSaga [stepA, stepB] (fun i => i == 0)).1.compensations = [1, 0] := by
  refine ⟨rfl, rfl, rfl⟩

/-- C1 amended: whenever a step of a saga fails, `compensate_saga` calls
`compensate_step` once for every index of the full steps list — succeeded or
not, the failed and the never-attempted steps included — in descending order
from `steps.len() - 1` down to 0; when no step fails there is no
compensation. -/
theorem executeSaga_compensations (steps : List SagaStep) (stepFails : Nat → Bool) :
    (executeSaga steps stepFails).1.compensations =
      match (executeSaga steps stepFails).2 with
      | some _ => (List.range steps.length).reverse
      | none => [] := by
  cases h : runSteps stepFails
      { currentStep := none, statusWrites := ["Running"], attempts := []
        compensations := [] } (List.range steps.length) with
  | mk s2 res =>
    have hc : s2.compensations = [] := by
      have h2 := runSteps_compensations stepFails (List.range steps.length)
        { currentStep := none, statusWrites := ["Running"], attempts := []
          compensations := [] }
      rw [h] at h2
      exact h2
    cases res with
    | none =>
      have he : executeSaga steps stepFails =
          ({ s2 with statusWrites := s2.statusWrites ++ ["Completed"] }, none) := by
        simp only [executeSaga]
        rw [h]
      rw [he]
      simpa using hc
    | some k =>
      have he : executeSaga steps stepFails =
          (compensateSaga steps.length s2, some k) := by
        simp only [executeSaga]
        rw [h]
      rw [he]
      simp [compensateSaga, hc]

/-- C2 counterexample: a saga whose only step carries a `RetryPolicy` with
`max_retries = 3` and which always fails is attempted exactly once — not
`1 + max_retries = 4` times — and the saga status never becomes `Failed`:
it goes `Running`, `Compensating`, `Compensated`. -/
theorem no_retry_no_failed_status_cex :
    (executeSaga [retriedStep] (fun _ => true)).2 = some 0 ∧
    (executeSaga [retriedStep] (fun _ => true)).1.attempts = [0] ∧
    (executeSaga [retriedStep] (fun _ => true)).1.attempts.count 0 ≠ 1 + 3 ∧
    (executeSaga [retriedStep] (fun _ => true)).1.statusWrites =
      ["Running", "Compensating", "Compensated"] ∧
    "Failed" ∉ (executeSaga [retriedStep] (fun _ => true)).1.statusWrites := by
  refine ⟨rfl, rfl, by decide, rfl, by decide⟩

/-- C2 amended: the orchestrator never consults a step's `RetryPolicy` and
never retries: each step up to and including the first failing one is
attempted exactly once, and on a step failure the saga status goes directly
from `Running` to `Compensating` and then `Compensated` — the status
`Failed` is never written. -/
theorem executeSaga_no_retry (steps : List SagaStep) (stepFails : Nat → Bool) :
    ((executeSaga steps stepFails).2 = none →
      (executeSaga steps stepFails).1.attempts = List.range steps.length ∧
      (executeSaga steps stepFails).1.statusWrites = ["Running", "Completed"]) ∧
    (∀ k, (executeSaga steps stepFails).2 = some k →
      k < steps.length ∧
      (executeSaga steps stepFails).1.attempts = List.range (k + 1) ∧
      (executeSaga steps stepFails).1.statusWrites =
        ["Running", "Compensating", "Compensated"]) ∧
    "Failed" ∉ (executeSaga steps stepFails).1.statusWrites := by
  cases h : runSteps stepFails
      { currentStep := none, statusWrites := ["Running"], attempts := []
        compensations := [] } (List.range steps.length) with
  | mk s2 res =>
    have hst : s2.statusWrites = ["Running"] := by
      have h2 := runSteps_statusWrites stepFails (List.range steps.length)
        { currentStep := none, statusWrites := ["Running"], attempts := []
          compensations := [] }
      rw [h] at h2
      exact h2
    have hatt := runSteps_range'_attempts stepFails steps.length 0
      { currentStep := none, statusWrites := ["Running"], attempts := []
        compensations := [] }
    rw [← List.range_eq_range' steps.length, h] at hatt
    cases res with
    | none =>
      have he : executeSaga steps stepFails =
          ({ s2 with statusWrites := s2.statusWrites ++ ["Completed"] }, none) := by
        simp only [executeSaga]
        rw [h]
      rw [he]
      refine ⟨fun _ => ⟨?_, ?_⟩, fun k hk => by simp at hk, ?_⟩
      · have h3 := hatt.1 rfl
        simpa [List.range_eq_range' steps.length] using h3
      · simp [hst]
      · simp [hst]
    | some k =>
      have he : executeSaga steps stepFails =
          (compensateSaga steps.length s2, some k) := by
        simp only [executeSaga]
        rw [h]
      rw [he]
      obtain ⟨h1, h2, h3⟩ := hatt.2 k rfl
      refine ⟨fun hc => by simp at hc, fun k2 hk2 => ?_, ?_⟩
      · have hkk : k = k2 := by simpa using hk2
        subst hkk
        refine ⟨by omega, ?_, ?_⟩
        · have h4 : k + 1 - 0 = k + 1 := by omega
          rw [h4] at h3
          simp only [compensateSaga]
          rw [List.range_eq_range' (k + 1)]
          simpa using h3
        · simp [compensateSaga, hst]
      · simp [compensateSaga, hst]

/-- C2 amended witness: the one-step always-failing saga with a
`max_retries = 3` policy, instantiating the failure branch. -/
theorem executeSaga_no_retry_witness :
    0 < [retriedStep].length ∧
    (executeSaga [retriedStep] (fun _ => true)).1.attempts = List.range (0 + 1) ∧
    (executeSaga [retriedStep] (fun _ => true)).1.statusWrites =
      ["Running", "Compensating", "Compensated"] :=
  have h := (executeSaga_no_retry [retriedStep] (fun _ => true)).2.1 0 (by decide)
  ⟨h.1, h.2.1, h.2.2⟩

/-- C8 counterexample: `start_saga` on an empty steps list does not fail —
it answers success and inserts a `Pending` saga record with the empty steps
list. -/
theorem startSaga_empty_steps_cex :
    (startSaga [] { name := "s", steps := [], metadata := none } "id0" 0).2.success = true ∧
    (startSaga [] { name := "s", steps := [], metadata := none } "id0" 0).1 =
      [{ id := "id0", name := "s", status := "Pending", steps := []
         currentStep := none, createdAt := 0, updatedAt := 0, metadata := [] }] := by
  exact ⟨rfl, rfl⟩

/-- C8 amended: `start_saga` performs no input validation at all — for every
request, the empty steps list included, it answers success and appends a
saga record in state `Pending` holding exactly the request data (the crate
has no `Invalid` error kind to reject with). -/
theorem startSaga_no_validation (tbl : List SagaRecord) (req : SagaRequest)
    (newId : String) (now : Nat) :
    (startSaga tbl req newId now).2.success = true ∧
    (startSaga tbl req newId now).1 =
      tbl ++ [{ id := newId, name := req.name, status := "Pending"
                steps := req.steps, currentStep := none, createdAt := now
                updatedAt := now, metadata := req.metadata.getD [] }] := by
  exact ⟨rfl, rfl⟩

/-! ## Claim theorems: EventStore -/

/-- Folding `max` over the nonempty range `a+1, …, a+n+1` yields its last
element. -/
theorem foldr_max_range'_aux :
    ∀ (n a : Nat), (List.range' (a + 1) (n + 1)).foldr max 0 = a + n + 1 := by
  intro n
  induction n with
  | zero =>
    intro a
    rw [List.range'_succ (a + 1) 0 1]
    simp
  | succ m ih =>
    intro a
    rw [List.range'_succ (a + 1) (m + 1) 1]
    simp only [List.foldr_cons]
    rw [show a + 1 + 1 = (a + 1) + 1 from rfl, ih (a + 1)]
    rw [Nat.max_eq_right (by omega)]
    omega

/-- Folding `max` over `1, …, n` yields `n`. -/
theorem foldr_max_range'_one (n : Nat) : (List.range' 1 n).foldr max 0 = n := by
  cases n with
  | zero => rfl
  | succ m =>
    have h := foldr_max_range'_aux m 0
    simpa using h

/-- Appending the next version to a dense version list keeps it dense. -/
theorem snoc_length_range' (V : List Nat) (h : V = List.range' 1 V.length) :
    V ++ [V.length + 1] = List.range' 1 ((V ++ [V.length + 1]).length) := by
  conv_lhs => rw [h]
  have hl : (V ++ [V.length + 1]).length = V.length + 1 := by simp
  rw [hl]
  have hs := range'_snoc 1 V.length
  rw [show (1 : Nat) + V.length = V.length + 1 from by omega] at hs
  simp only [List.length_range']
  exact hs

/-- The versions of a stream after appending one row to the table. -/
theorem versionsOf_append (tbl : EventsTable) (ev : Event) (sid : String) :
    versionsOf (tbl ++ [ev]) sid =
      versionsOf tbl sid ++ (if ev.streamId == sid then [ev.version] else []) := by
  unfold versionsOf
  rw [List.filter_append, List.map_append]
  congr 1
  cases h : ev.streamId == sid <;> simp [List.filter_cons, h]

/-- One `append_event` preserves per-stream version density and grows the
appended stream by exactly one version. -/
theorem appendEvent_density_step (tbl : EventsTable) (req : EventRequest)
    (eid : String) (now : Nat)
    (hinv : ∀ sid, versionsOf tbl sid = List.range' 1 (versionsOf tbl sid).length) :
    (∀ sid, versionsOf (appendEvent tbl req eid now).1 sid =
      List.range' 1 (versionsOf (appendEvent tbl req eid now).1 sid).length) ∧
    (∀ sid, (versionsOf (appendEvent tbl req eid now).1 sid).length =
      (versionsOf tbl sid).length + (if req.streamId == sid then 1 else 0)) := by
  have hev : (appendEvent tbl req eid now).1 = tbl ++
      [{ id := eid, streamId := req.streamId, eventType := req.eventType
         data := req.data, metadata := req.metadata, timestamp := now
         version := streamMaxVersion tbl req.streamId + 1 }] := by
    simp only [appendEvent]
  have hkey : ∀ sid, versionsOf (appendEvent tbl req eid now).1 sid =
      versionsOf tbl sid ++
        (if req.streamId == sid then [streamMaxVersion tbl req.streamId + 1] else []) := by
    intro sid
    rw [hev, versionsOf_append]
  constructor
  · intro sid
    rw [hkey sid]
    by_cases hsid : req.streamId = sid
    · have hb : (req.streamId == sid) = true := by simpa using hsid
      have hmax : streamMaxVersion tbl req.streamId = (versionsOf tbl sid).length := by
        unfold streamMaxVersion
        rw [hsid]
        conv_lhs => rw [hinv sid]
        exact foldr_max_range'_one _
      rw [if_pos hb, hmax]
      exact snoc_length_range' (versionsOf tbl sid) (hinv sid)
    · have hb : (req.streamId == sid) = false := by simpa using hsid
      rw [if_neg (by simp [hb])]
      simpa using hinv sid
  · intro sid
    rw [hkey sid]
    cases hb : req.streamId == sid <;> simp

/-- Applying a sequence of appends preserves density and grows each stream by
its number of requests. -/
theorem applyAppends_density (reqs : List (EventRequest × String × Nat)) :
    ∀ tbl : EventsTable,
      (∀ sid, versionsOf tbl sid = List.range' 1 (versionsOf tbl sid).length) →
      (∀ sid, versionsOf (applyAppends tbl reqs) sid =
        List.range' 1 (versionsOf (applyAppends tbl reqs) sid).length) ∧
      (∀ sid, (versionsOf (applyAppends tbl reqs) sid).length =
        (versionsOf tbl sid).length +
          reqs.countP (fun r => r.1.streamId == sid)) := by
  induction reqs with
  | nil =>
    intro tbl hinv
    exact ⟨hinv, fun sid => by simp [applyAppends]⟩
  | cons r rest ih =>
    intro tbl hinv
    obtain ⟨req, eid, now⟩ := r
    have hstep := appendEvent_density_step tbl req eid now hinv
    have hrec := ih (appendEvent tbl req eid now).1 hstep.1
    have h5 : applyAppends tbl ((req, eid, now) :: rest) =
        applyAppends (appendEvent tbl req eid now).1 rest := rfl
    constructor
    · intro sid
      rw [h5]
      exact hrec.1 sid
    · intro sid
      rw [h5, hrec.2 sid, hstep.2 sid, List.countP_cons]
      cases hb : req.streamId == sid
      · simp [hb]
      · simp [hb]
        omega

/-- C5: starting from an empty table, after the `append_event` calls of
`reqs`, each stream's stored versions are exactly `1, …, N` in row order
(`N` = its number of appends, so no holes and no duplicates), and the
version a further `append_event` on that stream would assign —
`MAX(version)+1 = N+1` — is precisely the smallest positive integer not yet
used in the stream. -/
theorem appendEvent_versions_dense (reqs : List (EventRequest × String × Nat))
    (sid : String) :
    versionsOf (applyAppends [] reqs) sid =
      List.range' 1 (reqs.countP (fun r => r.1.streamId == sid)) ∧
    streamMaxVersion (applyAppends [] reqs) sid =
      reqs.countP (fun r => r.1.streamId == sid) ∧
    (streamMaxVersion (applyAppends [] reqs) sid + 1) ∉
      versionsOf (applyAppends [] reqs) sid ∧
    (∀ w, 0 < w → w ∉ versionsOf (applyAppends [] reqs) sid →
      streamMaxVersion (applyAppends [] reqs) sid + 1 ≤ w) ∧
    (∀ (req : EventRequest) (eid : String) (now2 : Nat), req.streamId = sid →
      (appendEvent (applyAppends [] reqs) req eid now2).1 =
        applyAppends [] reqs ++
          [{ id := eid, streamId := req.streamId, eventType := req.eventType
             data := req.data, metadata := req.metadata, timestamp := now2
             version := streamMaxVersion (applyAppends [] reqs) sid + 1 }]) := by
  have hbase : ∀ s2, versionsOf ([] : EventsTable) s2 =
      List.range' 1 (versionsOf ([] : EventsTable) s2).length := by
    intro s2
    rfl
  obtain ⟨hd, hlen⟩ := applyAppends_density reqs [] hbase
  have hn : (versionsOf (applyAppends [] reqs) sid).length =
      reqs.countP (fun r => r.1.streamId == sid) := by
    have h2 := hlen sid
    simpa [versionsOf] using h2
  have hv : versionsOf (applyAppends [] reqs) sid =
      List.range' 1 (reqs.countP (fun r => r.1.streamId == sid)) := by
    rw [hd sid, hn]
  have hmax : streamMaxVersion (applyAppends [] reqs) sid =
      reqs.countP (fun r => r.1.streamId == sid) := by
    unfold streamMaxVersion
    rw [hv]
    exact foldr_max_range'_one _
  refine ⟨hv, hmax, ?_, ?_, ?_⟩
  · rw [hv, hmax]
    intro hmem
    rw [List.mem_range'_1] at hmem
    omega
  · intro w hw hnot
    rw [hv] at hnot
    rw [hmax]
    by_contra hlt
    push_neg at hlt
    apply hnot
    rw [List.mem_range'_1]
    omega
  · intro req eid now2 hreq
    simp only [appendEvent]
    rw [hreq]

/-- C5 witness: two appends to stream `"S"` interleaved with one to `"T"`
give `"S"` exactly the versions 1, 2, and the next version for `"S"` — 3 —
is minimal among unused positive integers (e.g. at most the unused 7). -/
theorem appendEvent_versions_dense_witness :
    versionsOf (applyAppends [] demoReqs) "S" = [1, 2] ∧
    streamMaxVersion (applyAppends [] demoReqs) "S" + 1 ≤ 7 := by
  have h := appendEvent_versions_dense demoReqs "S"
  refine ⟨by rw [h.1]; rfl, h.2.2.2.1 7 (by decide) ?_⟩
  rw [h.1]
  decide

end Syros
